import Mathlib

/-!
Verification of the fish-shell concurrent execution core against its sources.

Each component of the core is shallowly embedded as executable Lean
definitions translated from the C++ sources:

* the chdir serializer, from `src/util.cpp` (`chdir_serializer_t`);
* the separated buffer, from `src/io.h` (`separated_buffer_t`);
* the job-id allocator, from the `job_group.cpp` portion of
  `src/fish_string_view_tests.cpp` (`acquire_job_id` / `release_job_id`);
* the GIL scheduler, from `src/gil.cpp` (second, current draft: lines 60-186);
* the per-thread variable observer `gil_details::variable_t`, from the
  `gil.h` draft embedded in `src/unnamed/part_011` (lines 553-587).

C++ `assert` statements are modelled as guards: an operation returns `none`
when an assertion would fail (the process aborts), so reachable states are
exactly those reached without an assertion failure.  Pointer-identity values
(directory handles, thread references) are modelled by natural-number ids.
-/

set_option autoImplicit false

namespace Fish

namespace Chdir

/-- The errno value for an interrupted system call.  The fchdir retry loop in
`lock_cwd` (`do ... while (err == EINTR)`) exits only with an errno different
from `EINTR`, or with 0 on success. -/
def EINTR : Nat := 4

/-- State of `chdir_serializer_t::data_t` (util.cpp lines 164-180).
`current` is the identity of the `shared_ptr<const autoclose_fd_t>` most
recently installed by a successful `fchdir`, `none` for the initial null
pointer.  The `uint64_t` ticket counters are modelled as `Nat`: they advance
by at most one per serializer operation, so a wraparound cannot occur in any
execution of the program and overflow is not modelled. -/
structure data_t where
  current : Option Nat := none
  lock_count : Nat := 0
  next_available : Nat := 0
  now_serving : Nat := 0
deriving DecidableEq

/-- `chdir_serializer_t::try_advance_ticket` (util.cpp lines 203-211).  The
leading assert (`now_serving <= next_available`) is a guard. -/
def try_advance_ticket (d : data_t) : Option data_t :=
  if d.now_serving ≤ d.next_available then
    if d.lock_count = 0 ∧ d.now_serving < d.next_available then
      some { d with now_serving := d.now_serving + 1 }
    else
      some d
  else
    none

/-- Observable outcome of one `lock_cwd` call: the returned value (0 or -1),
the errno surfaced to the caller on failure, whether the call took a ticket,
and whether it invoked `fchdir`. -/
structure lock_outcome where
  ret : Int
  err : Option Nat
  took_ticket : Bool
  called_fchdir : Bool
deriving DecidableEq

/-- The errno left by the fchdir section of `lock_cwd` (util.cpp lines
239-249): the fchdir loop runs only when `current` disagrees with the
requested directory, else `err` stays 0.  `fchdir_err` is the errno with
which the retry loop exits when it is entered (0 on success); the
`while (err == EINTR)` loop guarantees this value is never `EINTR`. -/
def turn_err (d : data_t) (dir : Nat) (fchdir_err : Nat) : Nat :=
  if d.current = some dir then 0 else fchdir_err

/-- The serializer data after the fchdir section (util.cpp lines 240-249):
`current` is updated exactly when fchdir ran and succeeded. -/
def after_fchdir (d : data_t) (dir : Nat) (fchdir_err : Nat) : data_t :=
  if turn_err d dir fchdir_err = 0 ∧ ¬ d.current = some dir then
    { d with current := some dir }
  else
    d

/-- The serializer data after the fchdir section and the conditional lock
bump (util.cpp lines 240-256): `lock_count` is incremented exactly when there
was no error and a lock token was requested. -/
def turn_update (d : data_t) (dir : Nat) (want : Bool) (fchdir_err : Nat) : data_t :=
  if turn_err d dir fchdir_err = 0 ∧ want = true then
    { after_fchdir d dir fchdir_err with
        lock_count := (after_fchdir d dir fchdir_err).lock_count + 1 }
  else
    after_fchdir d dir fchdir_err

/-- The tail of `lock_cwd` executed once the calling thread's ticket equals
`now_serving` (util.cpp lines 236-262).  `want` models `out_lock != nullptr`.
The `assert(lock_count == 0)` at turn time is a guard. -/
def serve_turn (d : data_t) (dir : Nat) (want : Bool) (fchdir_err : Nat) :
    Option (data_t × lock_outcome) :=
  if d.lock_count = 0 then
    match try_advance_ticket (turn_update d dir want fchdir_err) with
    | none => none
    | some d3 =>
        some (d3,
          { ret := if turn_err d dir fchdir_err = 0 then 0 else -1,
            err := if turn_err d dir fchdir_err = 0 then none
                   else some (turn_err d dir fchdir_err),
            took_ticket := true,
            called_fchdir := if d.current = some dir then false else true })
  else
    none

/-- `chdir_serializer_t::lock_cwd` (util.cpp lines 213-263) as one sequential
call.  The fast path and the ticket-taking are verbatim; the wait loop
(`while (now_serving != ticket) condition_.wait(...)`) is modelled by
requiring the freshly taken ticket to be immediately served: a call that
would have to block for other threads is `none` here, and its eventual
completion is described by `serve_turn`.  `none` also models an assertion
failure. -/
def lock_cwd (d : data_t) (dir : Nat) (want : Bool) (fchdir_err : Nat) :
    Option (data_t × lock_outcome) :=
  if d.current = some dir ∧ d.now_serving = d.next_available then
    some ({ d with lock_count := d.lock_count + (if want = true then 1 else 0) },
      { ret := 0, err := none, took_ticket := false, called_fchdir := false })
  else if d.now_serving ≤ d.next_available then
    let ticket := d.next_available
    let d1 := { d with next_available := d.next_available + 1 }
    if d1.now_serving = ticket then serve_turn d1 dir want fchdir_err else none
  else
    none

/-- `chdir_serializer_t::release_cwd_lock` (util.cpp lines 265-270).  The
`assert(lock_count > 0)` is a guard. -/
def release_cwd_lock (d : data_t) : Option data_t :=
  if 0 < d.lock_count then
    try_advance_ticket { d with lock_count := d.lock_count - 1 }
  else
    none

/-- One fine-grained event of the serializer, used to enumerate reachable
states under concurrent callers: a fast-path `lock_cwd` call, a slow-path
caller taking its ticket (util.cpp lines 229-231), a waiting caller being
served once its ticket comes up, and a lock release.  `serve` is guarded by
`now_serving < next_available`, an over-approximation of "some blocked waiter
holds ticket `now_serving`"; extra transitions only add reachable states, so
invariants proved over this system hold of the real one. -/
inductive op where
  | fast (dir : Nat) (want : Bool)
  | take (dir : Nat)
  | serve (dir : Nat) (want : Bool) (fchdir_err : Nat)
  | rel
deriving DecidableEq

/-- One fine-grained transition of the serializer. -/
def step (d : data_t) : op → Option data_t
  | .fast dir want =>
      if d.current = some dir ∧ d.now_serving = d.next_available then
        some { d with lock_count := d.lock_count + (if want = true then 1 else 0) }
      else
        none
  | .take dir =>
      if d.current = some dir ∧ d.now_serving = d.next_available then
        none
      else if d.now_serving ≤ d.next_available then
        some { d with next_available := d.next_available + 1 }
      else
        none
  | .serve dir want fchdir_err =>
      if d.now_serving < d.next_available then
        (serve_turn d dir want fchdir_err).map Prod.fst
      else
        none
  | .rel => release_cwd_lock d

/-- The serializer's initial state: null `current`, both tickets 0, no locks. -/
def init : data_t := {}

/-- Run a sequence of fine-grained events from the initial state. -/
def run_ops (l : List op) : Option data_t :=
  l.foldl (fun acc o => acc.bind (fun d => step d o)) (some init)

end Chdir

namespace SepBuf

/-- `separation_type_t` (io.h lines 44-49). -/
inductive separation_type where
  | inferred
  | explicitly
deriving DecidableEq

/-- `separated_buffer_t::element_t` (io.h lines 56-64).  The template
parameter `StringType` is modelled as a list of abstract characters. -/
structure element_t where
  contents : List Nat
  separation : separation_type
deriving DecidableEq

/-- `element_t::is_explicitly_separated` (io.h line 63). -/
def element_t.is_explicitly_separated (e : element_t) : Bool :=
  match e.separation with
  | .explicitly => true
  | .inferred => false

/-- The threshold at which the C++ `size_t` arithmetic of `try_add_size`
wraps around. -/
def size_cap : Nat := 2 ^ 64

/-- The fields of `separated_buffer_t` (io.h lines 66-77).  `contents_size`
is the value of the `size_t` member `contents_size_`. -/
structure separated_buffer where
  buffer_limit : Nat
  contents_size : Nat
  elements : List element_t
  discard : Bool
deriving DecidableEq

/-- The constructor `separated_buffer_t(size_t limit)` (io.h line 102). -/
def mk_buffer (limit : Nat) : separated_buffer :=
  { buffer_limit := limit, contents_size := 0, elements := [], discard := false }

/-- `set_discard` (io.h lines 114-118). -/
def set_discard (b : separated_buffer) : separated_buffer :=
  { b with elements := [], contents_size := 0, discard := true }

/-- `reset_discard` (io.h line 120). -/
def reset_discard (b : separated_buffer) : separated_buffer :=
  { b with discard := false }

/-- `try_add_size` (io.h lines 81-94).  The C++ adds `delta` into the
`size_t` member and detects wraparound by checking `contents_size_ < delta`
afterwards; the modular addition is made explicit here. -/
def try_add_size (b : separated_buffer) (delta : Nat) : separated_buffer × Bool :=
  if b.discard then (b, false)
  else if (b.contents_size + delta) % size_cap < delta then
    (set_discard { b with contents_size := (b.contents_size + delta) % size_cap }, false)
  else if 0 < b.buffer_limit ∧ b.buffer_limit < (b.contents_size + delta) % size_cap then
    (set_discard { b with contents_size := (b.contents_size + delta) % size_cap }, false)
  else
    ({ b with contents_size := (b.contents_size + delta) % size_cap }, true)

/-- The element-list update performed by `append` (io.h lines 143-149): when
the new element is `inferred`, the list is non-empty and the last element is
not explicitly separated, the bytes merge into the last element; otherwise a
new element is pushed at the back. -/
def append_elements : List element_t → List Nat → separation_type → List element_t
  | [], data, sep => [{ contents := data, separation := sep }]
  | [e], data, sep =>
      if sep = separation_type.inferred ∧ e.is_explicitly_separated = false then
        [{ e with contents := e.contents ++ data }]
      else
        [e, { contents := data, separation := sep }]
  | e :: e2 :: rest, data, sep => e :: append_elements (e2 :: rest) data sep

/-- `append` (io.h lines 140-150): a failing `try_add_size` aborts the
append, a successful one stores the bytes. -/
def append (b : separated_buffer) (data : List Nat) (sep : separation_type) :
    separated_buffer :=
  match try_add_size b data.length with
  | (b1, false) => b1
  | (b1, true) => { b1 with elements := append_elements b1.elements data sep }

/-- One buffer operation, for enumerating reachable buffers. -/
inductive buf_op where
  | append (data : List Nat) (sep : separation_type)
  | set_discard
  | reset_discard
deriving DecidableEq

/-- Number of bytes an operation appends. -/
def buf_op.len : buf_op → Nat
  | .append data _ => data.length
  | .set_discard => 0
  | .reset_discard => 0

/-- Apply one buffer operation. -/
def apply_op (b : separated_buffer) : buf_op → separated_buffer
  | .append data sep => append b data sep
  | .set_discard => set_discard b
  | .reset_discard => reset_discard b

/-- Run a sequence of operations on a freshly constructed buffer. -/
def run_buf (limit : Nat) (l : List buf_op) : separated_buffer :=
  l.foldl apply_op (mk_buffer limit)

/-- Total byte length of a list of elements. -/
def total_len (els : List element_t) : Nat :=
  (els.map (fun e => e.contents.length)).sum

/-- No two consecutive elements are both of `inferred` separation. -/
def no_adjacent_inferred (els : List element_t) : Prop :=
  List.Chain'
    (fun a b =>
      ¬ (a.separation = separation_type.inferred ∧ b.separation = separation_type.inferred))
    els

/-- The buffer invariant of claim C8 strengthened with the bound that makes
the `size_t` arithmetic exact. -/
def buf_wf (b : separated_buffer) : Prop :=
  b.contents_size = total_len b.elements ∧
  b.contents_size < size_cap ∧
  (b.discard = true → b.elements = [] ∧ b.contents_size = 0) ∧
  no_adjacent_inferred b.elements

end SepBuf

namespace JobId

/-- `acquire_job_id` (fish_string_view_tests.cpp lines 866-873): the
consumed-ids vector is kept sorted, and a new id is `back() + 1`, or 1 when
no id is in use. -/
def acquire_job_id (l : List Nat) : List Nat × Nat :=
  let jid := match l.getLast? with
    | none => 1
    | some b => b + 1
  (l ++ [jid], jid)

/-- `release_job_id` (fish_string_view_tests.cpp lines 875-884): the asserts
(`jid > 0` and that the id is present) are guards; `std::find` followed by
`erase` removes the first occurrence. -/
def release_job_id (l : List Nat) (jid : Nat) : Option (List Nat) :=
  if 0 < jid then
    if jid ∈ l then some (l.erase jid) else none
  else none

/-- One job-id operation. -/
inductive job_op where
  | acquire
  | release (jid : Nat)
deriving DecidableEq

/-- Apply one job-id operation. -/
def job_step (l : List Nat) : job_op → Option (List Nat)
  | .acquire => some (acquire_job_id l).1
  | .release jid => release_job_id l jid

/-- Run a sequence of job-id operations from the empty vector. -/
def run_jobs (ops : List job_op) : Option (List Nat) :=
  ops.foldl (fun acc o => acc.bind (fun l => job_step l o)) (some [])

end JobId

namespace GilVar

/-- Slot lookup in the `tid_to_vals_` map (`unordered_map::find`), modelled
as first-match lookup in an association list with unique keys. -/
def find_slot {α : Type} : List (Nat × α) → Nat → Option α
  | [], _ => none
  | (k, v) :: rest, tid => if k = tid then some v else find_slot rest tid

/-- In-place update of the value stored at a key (`iter->second = x` through
a found iterator); the list is unchanged when the key is absent. -/
def write_slot {α : Type} : List (Nat × α) → Nat → α → List (Nat × α)
  | [], _, _ => []
  | (k, v) :: rest, tid, x =>
      if k = tid then (k, x) :: rest else (k, v) :: write_slot rest tid x

/-- Removal of a key (`unordered_map::erase`): removes the first match. -/
def erase_slot {α : Type} : List (Nat × α) → Nat → List (Nat × α)
  | [], _ => []
  | (k, v) :: rest, tid => if k = tid then rest else (k, v) :: erase_slot rest tid

/-- The state of one `gil_details::variable_t<T>` observer (part_011 lines
553-587): the per-tid slots `tid_to_vals_` and the published value
`*published_`. -/
structure var_state (α : Type) where
  slots : List (Nat × α)
  published : α
deriving DecidableEq

/-- `variable_t::did_spawn` (part_011 lines 564-568): emplace a snapshot of
the published value for the new tid; the assert that the emplacement
succeeded (the tid was fresh) is a guard. -/
def did_spawn {α : Type} (tid : Nat) (s : var_state α) : Option (var_state α) :=
  match find_slot s.slots tid with
  | some _ => none
  | none => some { s with slots := (tid, s.published) :: s.slots }

/-- `variable_t::will_destroy` (part_011 lines 570-574): erase the tid's
slot; the assert that exactly one entry was erased is a guard. -/
def will_destroy {α : Type} (tid : Nat) (s : var_state α) : Option (var_state α) :=
  match find_slot s.slots tid with
  | some _ => some { s with slots := erase_slot s.slots tid }
  | none => none

/-- `variable_t::will_unschedule` (part_011 lines 576-580): swap the tid's
slot with the published value; the assert that the slot exists is a guard. -/
def will_unschedule {α : Type} (tid : Nat) (s : var_state α) : Option (var_state α) :=
  match find_slot s.slots tid with
  | some v => some { slots := write_slot s.slots tid s.published, published := v }
  | none => none

/-- `variable_t::did_schedule` (part_011 lines 582-586): the identical swap
of the tid's slot with the published value. -/
def did_schedule {α : Type} (tid : Nat) (s : var_state α) : Option (var_state α) :=
  match find_slot s.slots tid with
  | some v => some { slots := write_slot s.slots tid s.published, published := v }
  | none => none

end GilVar

namespace Gil

/-- Observer hook invocations recorded while running the GIL.  The current
draft of the observer interface (gil.cpp lines 175-178) has four hooks;
`gil_t`'s code (gil.cpp lines 113-173) invokes only `did_schedule` (from
`run`) and contains no call site at all for `will_unschedule`, `did_spawn`
or `will_destroy`. -/
inductive event where
  | did_schedule (tid : Nat)
  | will_unschedule (tid : Nat)
deriving DecidableEq

/-- The state of `gil_t::impl_t` (gil.cpp lines 102-111) together with the
log of observer hook invocations.  `owner` is the currently running thread
and `waitqueue` the FIFO of threads blocked in `run()`; thread references
(`gil_thread_ref_t`) are modelled by their unique tids. -/
structure gil_state where
  owner : Option Nat := none
  waitqueue : List Nat := []
  events : List event := []
deriving DecidableEq

/-- `gil_t::schedule_if_needed` (gil.cpp lines 161-167): do nothing if a
thread is scheduled or nothing waits, else pop the FIFO front into `owner`
and notify it. -/
def schedule_if_needed (g : gil_state) : gil_state :=
  match g.owner, g.waitqueue with
  | some _, _ => g
  | none, [] => g
  | none, t :: rest => { g with owner := some t, waitqueue := rest }

/-- `gil_t::is_scheduled` (gil.cpp lines 127-131), for a non-null thread. -/
def is_scheduled (g : gil_state) (t : Nat) : Bool :=
  g.owner == some t

/-- `gil_t::run` (gil.cpp lines 133-148): the thread appends itself to the
waitqueue, `schedule_if_needed` runs, the thread sleeps until it is the
owner, and then `did_schedule` fires on every observer.  `owner` is assigned
nowhere except `schedule_if_needed`, and `release` (below) never clears it,
so a thread that does not end up as owner here can never be woken later: the
call stays blocked and only its enqueue is observable. -/
def run (g : gil_state) (t : Nat) : gil_state :=
  let g1 := schedule_if_needed { g with waitqueue := g.waitqueue ++ [t] }
  if g1.owner = some t then
    { g1 with events := g1.events ++ [event.did_schedule t] }
  else
    g1

/-- `gil_t::release` (gil.cpp lines 155-159): the entire body is the
assertion that the released thread is the owner (a guard here).  No observer
hook fires, `owner` is not cleared, and no waiter is scheduled or
notified. -/
def release (g : gil_state) (t : Nat) : Option gil_state :=
  if g.owner = some t then some g else none

/-- `gil_t::yield` (gil.cpp lines 150-153): `release` followed by `run`. -/
def yield (g : gil_state) (t : Nat) : Option gil_state :=
  (release g t).map (fun g1 => run g1 t)

/-- One GIL entry point invoked by some script thread. -/
inductive gil_op where
  | run (t : Nat)
  | yield (t : Nat)
  | release (t : Nat)
deriving DecidableEq

/-- Apply one GIL operation. -/
def gil_step (g : gil_state) : gil_op → Option gil_state
  | .run t => some (run g t)
  | .yield t => yield g t
  | .release t => release g t

/-- Run a sequence of GIL operations from the initial state (no owner, empty
queue). -/
def run_gil (ops : List gil_op) : Option gil_state :=
  ops.foldl (fun acc o => acc.bind (fun g => gil_step g o)) (some {})

end Gil

namespace Sys

/-- Combined state of a GIL with a single registered
`gil_details::variable_t<uint64_t>` observer: the scheduler fields of
`gil_t::impl_t` plus the observer's slots and published value. -/
structure sys_state where
  owner : Option Nat := none
  waitqueue : List Nat := []
  var : GilVar.var_state Nat := { slots := [], published := 0 }
deriving DecidableEq

/-- `gil_t::schedule_if_needed` (gil.cpp lines 161-167) on the combined
state. -/
def sys_schedule_if_needed (s : sys_state) : sys_state :=
  match s.owner, s.waitqueue with
  | some _, _ => s
  | none, [] => s
  | none, t :: rest => { s with owner := some t, waitqueue := rest }

/-- `gil_t::run` (gil.cpp lines 133-148) with the observer loop of lines
145-147 applied to the variable observer: `did_schedule` fires exactly when
the enqueued thread ends up as (or already is) the owner. -/
def sys_run (s : sys_state) (t : Nat) : Option sys_state :=
  let s1 := sys_schedule_if_needed { s with waitqueue := s.waitqueue ++ [t] }
  if s1.owner = some t then
    (GilVar.did_schedule t s1.var).map (fun vs => { s1 with var := vs })
  else
    some s1

/-- `gil_t::release` (gil.cpp lines 155-159) on the combined state: assert
ownership, change nothing, fire nothing. -/
def sys_release (s : sys_state) (t : Nat) : Option sys_state :=
  if s.owner = some t then some s else none

/-- `gil_t::yield` (gil.cpp lines 150-153) on the combined state. -/
def sys_yield (s : sys_state) (t : Nat) : Option sys_state :=
  (sys_release s t).bind (fun s1 => sys_run s1 t)

/-- Registration of a new script thread.  Modelled from the spec: the
`gil_t` draft in the source has no spawn entry point (only the `did_spawn`
observer hook exists, with no caller); the spec says `spawn(thread)` fires
`did_spawn(tid)` on every observer and does not schedule. -/
def sys_spawn (s : sys_state) (t : Nat) : Option sys_state :=
  (GilVar.did_spawn t s.var).map (fun vs => { s with var := vs })

/-- A store to the published variable by the running thread: the claim's
"T writes value v to the published V while T is scheduled". -/
def sys_write (s : sys_state) (t : Nat) (v : Nat) : Option sys_state :=
  if s.owner = some t then
    some { s with var := { s.var with published := v } }
  else none

/-- One operation of the combined system. -/
inductive sys_op where
  | spawn (t : Nat)
  | run (t : Nat)
  | yield (t : Nat)
  | release (t : Nat)
  | write (t : Nat) (v : Nat)
deriving DecidableEq

/-- Apply one combined-system operation. -/
def sys_step (s : sys_state) : sys_op → Option sys_state
  | .spawn t => sys_spawn s t
  | .run t => sys_run s t
  | .yield t => sys_yield s t
  | .release t => sys_release s t
  | .write t v => sys_write s t v

/-- Run a sequence of combined-system operations from the initial state. -/
def run_sys (ops : List sys_op) : Option sys_state :=
  ops.foldl (fun acc o => acc.bind (fun s => sys_step s o)) (some {})

end Sys

/-! Generic lemmas about running an operation list through an
assert-guarded step function. -/

theorem foldl_bind_none {σ τ : Type} (f : σ → τ → Option σ) (l : List τ) :
    l.foldl (fun acc o => acc.bind (fun s => f s o)) none = none := by
  induction l with
  | nil => rfl
  | cons o rest ih => exact ih

theorem foldl_bind_inv {σ τ : Type} (f : σ → τ → Option σ) (P : σ → Prop)
    (hstep : ∀ s o s', f s o = some s' → P s → P s') (l : List τ) (s0 s : σ) (h0 : P s0)
    (h : l.foldl (fun acc o => acc.bind (fun s => f s o)) (some s0) = some s) : P s := by
  induction l generalizing s0 with
  | nil =>
      rw [List.foldl_nil] at h
      cases h
      exact h0
  | cons o rest ih =>
      rw [List.foldl_cons] at h
      cases hf : f s0 o with
      | none =>
          rw [show Option.bind (some s0) (fun s => f s o) = f s0 o from rfl, hf,
            foldl_bind_none] at h
          cases h
      | some s1 =>
          rw [show Option.bind (some s0) (fun s => f s o) = f s0 o from rfl, hf] at h
          exact ih s1 (hstep s0 o s1 hf h0) h

namespace Chdir

theorem try_advance_ticket_spec {d d' : data_t} (h : try_advance_ticket d = some d') :
    d.now_serving ≤ d'.now_serving ∧ d'.now_serving ≤ d'.next_available ∧
      d'.current = d.current ∧ d'.lock_count = d.lock_count ∧
      d'.next_available = d.next_available := by
  unfold try_advance_ticket at h
  split at h
  case isTrue hle =>
    split at h
    case isTrue hcond =>
      cases h
      refine ⟨Nat.le_succ _, ?_, rfl, rfl, rfl⟩
      show d.now_serving + 1 ≤ d.next_available
      omega
    case isFalse =>
      cases h
      exact ⟨le_rfl, hle, rfl, rfl, rfl⟩
  case isFalse => cases h

theorem after_fchdir_counters (d : data_t) (dir : Nat) (e : Nat) :
    (after_fchdir d dir e).now_serving = d.now_serving ∧
      (after_fchdir d dir e).next_available = d.next_available ∧
      (after_fchdir d dir e).lock_count = d.lock_count := by
  unfold after_fchdir
  split <;> exact ⟨rfl, rfl, rfl⟩

theorem turn_update_counters (d : data_t) (dir : Nat) (want : Bool) (e : Nat) :
    (turn_update d dir want e).now_serving = d.now_serving ∧
      (turn_update d dir want e).next_available = d.next_available := by
  unfold turn_update
  obtain ⟨h1, h2, _⟩ := after_fchdir_counters d dir e
  split <;> exact ⟨h1, h2⟩

theorem serve_turn_state_spec {d : data_t} {dir : Nat} {want : Bool} {e : Nat} {d' : data_t}
    {out : lock_outcome} (h : serve_turn d dir want e = some (d', out)) :
    d.lock_count = 0 ∧ d.now_serving ≤ d'.now_serving ∧
      d'.now_serving ≤ d'.next_available ∧ d'.next_available = d.next_available := by
  unfold serve_turn at h
  split at h
  case isFalse => cases h
  case isTrue hlc =>
    refine ⟨hlc, ?_⟩
    obtain ⟨hns, hna⟩ := turn_update_counters d dir want e
    cases hadv : try_advance_ticket (turn_update d dir want e) with
    | none => rw [hadv] at h; cases h
    | some d3 =>
        rw [hadv] at h
        cases h
        obtain ⟨hm, hb, _, _, hna3⟩ := try_advance_ticket_spec hadv
        exact ⟨hns ▸ hm, hb, by rw [hna3, hna]⟩

/-- Every non-aborting fine-grained serializer transition keeps `now_serving`
non-decreasing, re-establishes `now_serving ≤ next_available`, and leaves
`current` unchanged whenever a lock is held. -/
theorem step_spec {d : data_t} {o : op} {d' : data_t} (h : step d o = some d') :
    d.now_serving ≤ d'.now_serving ∧ d'.now_serving ≤ d'.next_available ∧
      (0 < d.lock_count → d'.current = d.current) := by
  cases o with
  | fast dir want =>
      simp only [step] at h
      split at h
      case isTrue hg =>
        cases h
        exact ⟨le_rfl, le_of_eq hg.2, fun _ => rfl⟩
      case isFalse => cases h
  | take dir =>
      simp only [step] at h
      split at h
      case isTrue => cases h
      case isFalse =>
        split at h
        case isTrue hle =>
          cases h
          refine ⟨le_rfl, ?_, fun _ => rfl⟩
          show d.now_serving ≤ d.next_available + 1
          omega
        case isFalse => cases h
  | serve dir want e =>
      simp only [step] at h
      split at h
      case isTrue =>
        cases hs : serve_turn d dir want e with
        | none => rw [hs] at h; cases h
        | some p =>
            obtain ⟨d1, out1⟩ := p
            rw [hs] at h
            have hd : d1 = d' := by simpa using h
            subst hd
            obtain ⟨hlc, hm, hb, _⟩ := serve_turn_state_spec hs
            exact ⟨hm, hb, fun hpos => absurd hlc (by omega)⟩
      case isFalse => cases h
  | rel =>
      simp only [step, release_cwd_lock] at h
      split at h
      case isTrue =>
        obtain ⟨hm, hb, hc, _, _⟩ := try_advance_ticket_spec h
        exact ⟨hm, hb, fun _ => hc⟩
      case isFalse => cases h

end Chdir

/-- Claim C5, as stated, is false: a fast-path `lock_cwd` call with
`current == dir_handle` and `now_serving == next_ticket` but with no lock
token requested (`out_lock == nullptr`, modelled by `want = false`) returns
success immediately, takes no ticket and calls no fchdir, yet leaves
`lock_count` at 0 instead of incrementing it. -/
theorem C5_fast_path_counterexample :
    Chdir.lock_cwd { current := some 7, lock_count := 0, next_available := 4, now_serving := 4 }
        7 false 0 =
      some ({ current := some 7, lock_count := 0, next_available := 4, now_serving := 4 },
        { ret := 0, err := none, took_ticket := false, called_fchdir := false }) := by
  decide

/-- Claim C5 (amended): every `lock_cwd` call with `current == dir_handle`
and no waiters (`now_serving == next_ticket`) takes the fast path: it
returns success immediately, without taking a ticket and without calling
fchdir, and increments `lock_count` exactly when the caller requested a lock
token (`out_lock != nullptr`). -/
theorem C5_fast_path (d : Chdir.data_t) (dir : Nat) (want : Bool) (e : Nat)
    (hcur : d.current = some dir) (hnow : d.now_serving = d.next_available) :
    Chdir.lock_cwd d dir want e =
      some ({ d with lock_count := d.lock_count + (if want = true then 1 else 0) },
        { ret := 0, err := none, took_ticket := false, called_fchdir := false }) := by
  unfold Chdir.lock_cwd
  rw [if_pos ⟨hcur, hnow⟩]

/-- Witness for C5 (amended) at a concrete fast-path call that requests a
token: the shared hold count rises from 2 to 3. -/
theorem C5_fast_path_witness :
    (some 7 : Option Nat) = some 7 ∧ (4 : Nat) = 4 ∧
      Chdir.lock_cwd { current := some 7, lock_count := 2, next_available := 4, now_serving := 4 }
          7 true 0 =
        some ({ current := some 7, lock_count := 3, next_available := 4, now_serving := 4 },
          { ret := 0, err := none, took_ticket := false, called_fchdir := false }) :=
  ⟨rfl, rfl,
    C5_fast_path { current := some 7, lock_count := 2, next_available := 4, now_serving := 4 }
      7 true 0 rfl rfl⟩

/-- Claim C6: whenever fchdir fails inside `lock_cwd` with an errno other
than `EINTR`, the call returns -1 with that errno surfaced to the caller,
the cached `current` handle is not updated, `lock_count` is not
incremented, and `now_serving` is still advanced so that the next ticketed
waiter gets a turn. -/
theorem C6_fchdir_failure_surfaced (d : Chdir.data_t) (dir : Nat) (want : Bool) (e : Nat)
    (hcur : ¬ d.current = some dir) (he0 : e ≠ 0) (_heintr : e ≠ Chdir.EINTR)
    (hlc : d.lock_count = 0) (hwait : d.now_serving < d.next_available) :
    Chdir.serve_turn d dir want e =
      some ({ d with now_serving := d.now_serving + 1 },
        { ret := -1, err := some e, took_ticket := true, called_fchdir := true }) := by
  have hte : Chdir.turn_err d dir e = e := if_neg hcur
  have haf : Chdir.after_fchdir d dir e = d := by
    unfold Chdir.after_fchdir
    rw [hte]
    exact if_neg (fun hc => he0 hc.1)
  have htu : Chdir.turn_update d dir want e = d := by
    unfold Chdir.turn_update
    rw [hte, haf]
    exact if_neg (fun hc => he0 hc.1)
  have hadv : Chdir.try_advance_ticket d = some { d with now_serving := d.now_serving + 1 } := by
    unfold Chdir.try_advance_ticket
    rw [if_pos (le_of_lt hwait), if_pos ⟨hlc, hwait⟩]
  unfold Chdir.serve_turn
  rw [if_pos hlc, htu, hadv, hte]
  simp [he0, hcur]

/-- Witness for C6: at the head of a queue of two tickets, fchdir to a new
directory fails with errno 13 (`EACCES`); the errno is surfaced, `current`
and `lock_count` are untouched, and `now_serving` advances from 1 to 2. -/
theorem C6_fchdir_failure_witness :
    (¬ (some 9 : Option Nat) = some 5) ∧ (13 : Nat) ≠ 0 ∧ (13 : Nat) ≠ Chdir.EINTR ∧
      (0 : Nat) = 0 ∧ (1 : Nat) < 3 ∧
      Chdir.serve_turn { current := some 9, lock_count := 0, next_available := 3, now_serving := 1 }
          5 true 13 =
        some ({ current := some 9, lock_count := 0, next_available := 3, now_serving := 2 },
          { ret := -1, err := some 13, took_ticket := true, called_fchdir := true }) :=
  ⟨by decide, by decide, by decide, rfl, by decide,
    C6_fchdir_failure_surfaced
      { current := some 9, lock_count := 0, next_available := 3, now_serving := 1 }
      5 true 13 (by decide) (by decide) (by decide) rfl (by decide)⟩

/-- Claim C7: in every state of the chdir serializer reachable by any
sequence of `lock_cwd` / `release_cwd_lock` events, `now_serving` never
exceeds `next_available` (the next ticket), every further operation leaves
`now_serving` non-decreasing, and while `lock_count > 0` no operation
changes the cached `current` directory handle. -/
theorem C7_chdir_ticket_invariants (l : List Chdir.op) (d : Chdir.data_t)
    (h : Chdir.run_ops l = some d) (o : Chdir.op) (d' : Chdir.data_t)
    (h2 : Chdir.step d o = some d') :
    d.now_serving ≤ d.next_available ∧ d.now_serving ≤ d'.now_serving ∧
      (0 < d.lock_count → d'.current = d.current) := by
  unfold Chdir.run_ops at h
  have hreach : d.now_serving ≤ d.next_available := by
    refine foldl_bind_inv Chdir.step (fun s => s.now_serving ≤ s.next_available) ?_ l
      Chdir.init d le_rfl h
    intro s o' s' hs _
    exact (Chdir.step_spec hs).2.1
  obtain ⟨hm, _, hc⟩ := Chdir.step_spec h2
  exact ⟨hreach, hm, hc⟩

namespace SepBuf

theorem total_len_cons (e : element_t) (l : List element_t) :
    total_len (e :: l) = e.contents.length + total_len l := by
  unfold total_len
  rw [List.map_cons, List.sum_cons]

theorem append_elements_total_len (els : List element_t) (data : List Nat)
    (sep : separation_type) :
    total_len (append_elements els data sep) = total_len els + data.length := by
  induction els with
  | nil =>
      show total_len [{ contents := data, separation := sep }] = total_len [] + data.length
      rw [total_len_cons]
      show data.length + 0 = 0 + data.length
      omega
  | cons e rest ih =>
      cases rest with
      | nil =>
          unfold append_elements
          split
          · rw [total_len_cons, total_len_cons]
            show (e.contents ++ data).length + total_len [] =
              e.contents.length + total_len [] + data.length
            rw [List.length_append]
            omega
          · rw [total_len_cons, total_len_cons, total_len_cons]
            show e.contents.length + (data.length + total_len []) =
              e.contents.length + total_len [] + data.length
            omega
      | cons e2 rest2 =>
          show total_len (e :: append_elements (e2 :: rest2) data sep) =
            total_len (e :: e2 :: rest2) + data.length
          rw [total_len_cons, total_len_cons, ih]
          omega

theorem append_elements_cons_head (e : element_t) (rest : List element_t) (data : List Nat)
    (sep : separation_type) :
    ∃ c tl, append_elements (e :: rest) data sep =
      { contents := c, separation := e.separation } :: tl := by
  cases rest with
  | nil =>
      unfold append_elements
      split
      · exact ⟨e.contents ++ data, [], rfl⟩
      · exact ⟨e.contents, [{ contents := data, separation := sep }], rfl⟩
  | cons e2 rest2 =>
      exact ⟨e.contents, append_elements (e2 :: rest2) data sep, rfl⟩

theorem append_elements_chain (els : List element_t) (data : List Nat) (sep : separation_type)
    (h : no_adjacent_inferred els) : no_adjacent_inferred (append_elements els data sep) := by
  induction els with
  | nil => exact List.chain'_singleton _
  | cons e rest ih =>
      cases rest with
      | nil =>
          unfold append_elements
          split
          case isTrue => exact List.chain'_singleton _
          case isFalse hcond =>
            refine List.chain'_cons.mpr ⟨?_, List.chain'_singleton _⟩
            rintro ⟨h1, h2⟩
            apply hcond
            refine ⟨h2, ?_⟩
            unfold element_t.is_explicitly_separated
            rw [h1]
      | cons e2 rest2 =>
          unfold no_adjacent_inferred at h
          rw [List.chain'_cons] at h
          obtain ⟨h1, h2⟩ := h
          have hrec := ih h2
          obtain ⟨c, tl, heq⟩ := append_elements_cons_head e2 rest2 data sep
          show no_adjacent_inferred (e :: append_elements (e2 :: rest2) data sep)
          unfold no_adjacent_inferred
          rw [heq]
          rw [heq] at hrec
          exact List.chain'_cons.mpr ⟨h1, hrec⟩

theorem set_discard_wf (b : separated_buffer) : buf_wf (set_discard b) :=
  ⟨rfl, pow_pos (by decide) 64, fun _ => ⟨rfl, rfl⟩, List.chain'_nil⟩

theorem size_cap_eq : size_cap = 18446744073709551616 := by decide

theorem apply_op_wf (b : separated_buffer) (o : buf_op) (hlen : buf_op.len o < size_cap)
    (h : buf_wf b) : buf_wf (apply_op b o) := by
  obtain ⟨hsz, hlt, hdis, hch⟩ := h
  cases o with
  | set_discard => exact set_discard_wf b
  | reset_discard =>
      refine ⟨hsz, hlt, ?_, hch⟩
      intro hf
      exact (Bool.false_ne_true hf).elim
  | append data sep =>
      have hdelta : data.length < size_cap := hlen
      show buf_wf (append b data sep)
      unfold append try_add_size
      split_ifs with h1 h2 h3
      · exact ⟨hsz, hlt, hdis, hch⟩
      · exact set_discard_wf _
      · exact set_discard_wf _
      · have hb1 : b.discard = false := by
          cases hb : b.discard with
          | false => rfl
          | true => exact absurd hb h1
        have hcap : 0 < size_cap := pow_pos (by decide) 64
        have hexact : (b.contents_size + data.length) % size_cap =
            b.contents_size + data.length := by
          rw [size_cap_eq] at hlt hdelta h2 ⊢
          omega
        refine ⟨?_, ?_, ?_, ?_⟩
        · show (b.contents_size + data.length) % size_cap =
            total_len (append_elements b.elements data sep)
          rw [append_elements_total_len, hexact, hsz]
        · exact Nat.mod_lt _ hcap
        · intro hf
          have hbd : b.discard = true := hf
          rw [hb1] at hbd
          exact (Bool.false_ne_true hbd).elim
        · exact append_elements_chain _ _ _ hch

theorem foldl_apply_op_wf (ops : List buf_op) : ∀ (b0 : separated_buffer),
    (∀ o ∈ ops, buf_op.len o < size_cap) → buf_wf b0 → buf_wf (ops.foldl apply_op b0) := by
  induction ops with
  | nil => intro b0 _ h0; exact h0
  | cons o rest ih =>
      intro b0 hops h0
      rw [List.foldl_cons]
      exact ih _ (fun o' ho' => hops o' (List.mem_cons_of_mem _ ho'))
        (apply_op_wf b0 o (hops o (List.mem_cons_self _ _)) h0)

theorem mk_buffer_wf (limit : Nat) : buf_wf (mk_buffer limit) :=
  ⟨rfl, pow_pos (by decide) 64, fun hf => (Bool.false_ne_true hf).elim, List.chain'_nil⟩

end SepBuf

/-- Claim C8: in every separated buffer reachable by any sequence of
`append`, `set_discard` and `reset_discard` operations (each appending fewer
bytes than `size_t` can count), the size equals the sum of the element byte
lengths, a set discard flag implies the elements are gone and the size is 0,
and no two consecutive elements are both of `inferred` separation. -/
theorem C8_buffer_invariants (limit : Nat) (ops : List SepBuf.buf_op)
    (hops : ∀ o ∈ ops, SepBuf.buf_op.len o < SepBuf.size_cap) :
    (SepBuf.run_buf limit ops).contents_size =
        SepBuf.total_len (SepBuf.run_buf limit ops).elements ∧
      ((SepBuf.run_buf limit ops).discard = true →
        (SepBuf.run_buf limit ops).elements = [] ∧
          (SepBuf.run_buf limit ops).contents_size = 0) ∧
      SepBuf.no_adjacent_inferred (SepBuf.run_buf limit ops).elements := by
  obtain ⟨h1, _, h3, h4⟩ :=
    SepBuf.foldl_apply_op_wf ops (SepBuf.mk_buffer limit) hops (SepBuf.mk_buffer_wf limit)
  exact ⟨h1, h3, h4⟩

/-- Witness for C8 at a concrete run: two inferred appends (which coalesce)
followed by an explicit one. -/
theorem C8_buffer_invariants_witness :
    (∀ o ∈ [SepBuf.buf_op.append [1, 2] SepBuf.separation_type.inferred,
        SepBuf.buf_op.append [3] SepBuf.separation_type.inferred,
        SepBuf.buf_op.append [4] SepBuf.separation_type.explicitly],
      SepBuf.buf_op.len o < SepBuf.size_cap) ∧
    ((SepBuf.run_buf 0 [SepBuf.buf_op.append [1, 2] SepBuf.separation_type.inferred,
        SepBuf.buf_op.append [3] SepBuf.separation_type.inferred,
        SepBuf.buf_op.append [4] SepBuf.separation_type.explicitly]).contents_size =
        SepBuf.total_len (SepBuf.run_buf 0 [SepBuf.buf_op.append [1, 2]
          SepBuf.separation_type.inferred,
          SepBuf.buf_op.append [3] SepBuf.separation_type.inferred,
          SepBuf.buf_op.append [4] SepBuf.separation_type.explicitly]).elements ∧
      ((SepBuf.run_buf 0 [SepBuf.buf_op.append [1, 2] SepBuf.separation_type.inferred,
        SepBuf.buf_op.append [3] SepBuf.separation_type.inferred,
        SepBuf.buf_op.append [4] SepBuf.separation_type.explicitly]).discard = true →
        (SepBuf.run_buf 0 [SepBuf.buf_op.append [1, 2] SepBuf.separation_type.inferred,
          SepBuf.buf_op.append [3] SepBuf.separation_type.inferred,
          SepBuf.buf_op.append [4] SepBuf.separation_type.explicitly]).elements = [] ∧
          (SepBuf.run_buf 0 [SepBuf.buf_op.append [1, 2] SepBuf.separation_type.inferred,
            SepBuf.buf_op.append [3] SepBuf.separation_type.inferred,
            SepBuf.buf_op.append [4] SepBuf.separation_type.explicitly]).contents_size = 0) ∧
      SepBuf.no_adjacent_inferred (SepBuf.run_buf 0 [SepBuf.buf_op.append [1, 2]
        SepBuf.separation_type.inferred,
        SepBuf.buf_op.append [3] SepBuf.separation_type.inferred,
        SepBuf.buf_op.append [4] SepBuf.separation_type.explicitly]).elements) :=
  ⟨by decide, C8_buffer_invariants 0 _ (by decide)⟩

/-- Witness for C7: after taking one ticket and being served with a
successful locking fchdir, releasing the lock is a step that advances
`now_serving` while preserving the invariants. -/
theorem C7_chdir_ticket_invariants_witness :
    Chdir.run_ops [Chdir.op.take 3, Chdir.op.serve 3 true 0] =
        some { current := some 3, lock_count := 1, next_available := 1, now_serving := 0 } ∧
      Chdir.step { current := some 3, lock_count := 1, next_available := 1, now_serving := 0 }
          Chdir.op.rel =
        some { current := some 3, lock_count := 0, next_available := 1, now_serving := 1 } ∧
      ((0 : Nat) ≤ 1 ∧ (0 : Nat) ≤ 1 ∧
        (0 < 1 → (some 3 : Option Nat) = some 3)) :=
  ⟨by decide, by decide,
    C7_chdir_ticket_invariants [Chdir.op.take 3, Chdir.op.serve 3 true 0]
      { current := some 3, lock_count := 1, next_available := 1, now_serving := 0 }
      (by decide) Chdir.op.rel
      { current := some 3, lock_count := 0, next_available := 1, now_serving := 1 }
      (by decide)⟩

namespace JobId

theorem getLast?_mem_list {l : List Nat} {b : Nat} (hb : l.getLast? = some b) : b ∈ l := by
  obtain ⟨hne, hbe⟩ := List.mem_getLast?_eq_getLast (show b ∈ l.getLast? from hb)
  rw [hbe]
  exact List.getLast_mem hne

theorem sorted_le_getLast : ∀ {l : List Nat}, List.Sorted (· < ·) l → ∀ {b : Nat},
    l.getLast? = some b → ∀ {x : Nat}, x ∈ l → x ≤ b := by
  intro l
  induction l with
  | nil =>
      intro _ b hb
      cases hb
  | cons a rest ih =>
      intro hs b hb x hx
      rw [List.sorted_cons] at hs
      obtain ⟨hall, hs2⟩ := hs
      cases rest with
      | nil =>
          have hba : b = a := by
            have : some a = some b := hb
            cases this
            rfl
          have hxa : x = a := by
            rcases List.mem_singleton.mp hx with rfl
            rfl
          rw [hba, hxa]
      | cons c rest2 =>
          rw [List.getLast?_cons_cons] at hb
          rcases List.mem_cons.mp hx with rfl | hx2
          · exact le_of_lt (hall b (getLast?_mem_list hb))
          · exact ih hs2 hb hx2

theorem acquire_spec {l : List Nat} (hs : List.Sorted (· < ·) l) :
    (∀ x ∈ l, x < (acquire_job_id l).2) ∧
      (l ≠ [] → ∀ m : Nat, (∀ x ∈ l, x < m) → (acquire_job_id l).2 ≤ m) ∧
      (l = [] → (acquire_job_id l).2 = 1) := by
  cases hl : l.getLast? with
  | none =>
      have hnil : l = [] := by
        cases l with
        | nil => rfl
        | cons a rest =>
            rw [List.getLast?_eq_getLast_of_ne_nil (List.cons_ne_nil a rest)] at hl
            cases hl
      subst hnil
      refine ⟨fun x hx => absurd hx (List.not_mem_nil x), fun hne => absurd rfl hne, fun _ => ?_⟩
      show (match ([] : List Nat).getLast? with | none => 1 | some b => b + 1) = 1
      rfl
  | some b =>
      have hjid : (acquire_job_id l).2 = b + 1 := by
        show (match l.getLast? with | none => 1 | some b => b + 1) = b + 1
        rw [hl]
      rw [hjid]
      refine ⟨?_, ?_, ?_⟩
      · intro x hx
        exact Nat.lt_succ_of_le (sorted_le_getLast hs hl hx)
      · intro _ m hm
        exact Nat.succ_le_of_lt (hm b (getLast?_mem_list hl))
      · intro hnil
        subst hnil
        cases hl

theorem job_step_sorted {l : List Nat} {o : job_op} {l' : List Nat}
    (h : job_step l o = some l') (hs : List.Sorted (· < ·) l) :
    List.Sorted (· < ·) l' := by
  cases o with
  | acquire =>
      simp only [job_step] at h
      cases h
      show List.Sorted (· < ·) (l ++ [(acquire_job_id l).2])
      refine List.pairwise_append.mpr ⟨hs, List.pairwise_singleton _ _, ?_⟩
      intro a ha b hbmem
      rw [List.mem_singleton] at hbmem
      subst hbmem
      exact (acquire_spec hs).1 a ha
  | release jid =>
      simp only [job_step, release_job_id] at h
      split at h
      case isTrue =>
        split at h
        case isTrue =>
          cases h
          exact List.Pairwise.sublist (List.erase_sublist _ _) hs
        case isFalse => cases h
      case isFalse => cases h

theorem sorted_nodup {l : List Nat} (hs : List.Sorted (· < ·) l) : l.Nodup :=
  List.Pairwise.imp (fun hab => Nat.ne_of_lt hab) hs

end JobId

/-- Claim C9: for every state of the job-id vector reachable by any sequence
of `acquire_job_id` / `release_job_id` calls, a further `acquire_job_id`
returns an id strictly greater than every id currently in use and no greater
than any other such bound (i.e. the smallest one), returns 1 when no id is
in use, and the ids in use are pairwise distinct. -/
theorem C9_job_id_allocation (ops : List JobId.job_op) (l : List Nat)
    (h : JobId.run_jobs ops = some l) :
    (∀ x ∈ l, x < (JobId.acquire_job_id l).2) ∧
      (l ≠ [] → ∀ m : Nat, (∀ x ∈ l, x < m) → (JobId.acquire_job_id l).2 ≤ m) ∧
      (l = [] → (JobId.acquire_job_id l).2 = 1) ∧
      l.Nodup := by
  unfold JobId.run_jobs at h
  have hs : List.Sorted (· < ·) l :=
    foldl_bind_inv JobId.job_step (List.Sorted (· < ·))
      (fun _ _ _ hstep hsort => JobId.job_step_sorted hstep hsort) ops [] l List.sorted_nil h
  obtain ⟨h1, h2, h3⟩ := JobId.acquire_spec hs
  exact ⟨h1, h2, h3, JobId.sorted_nodup hs⟩

/-- Witness for C9 after two acquisitions and the release of job id 1: only
id 2 is live, and the next id would be 3. -/
theorem C9_job_id_allocation_witness :
    JobId.run_jobs [JobId.job_op.acquire, JobId.job_op.acquire, JobId.job_op.release 1] =
        some [2] ∧
      ((∀ x ∈ [2], x < (JobId.acquire_job_id [2]).2) ∧
        (([2] : List Nat) ≠ [] → ∀ m : Nat, (∀ x ∈ [2], x < m) →
          (JobId.acquire_job_id [2]).2 ≤ m) ∧
        (([2] : List Nat) = [] → (JobId.acquire_job_id [2]).2 = 1) ∧
        ([2] : List Nat).Nodup) :=
  ⟨by decide,
    C9_job_id_allocation [JobId.job_op.acquire, JobId.job_op.acquire, JobId.job_op.release 1]
      [2] (by decide)⟩

namespace GilVar

theorem find_slot_write_slot {α : Type} (m : List (Nat × α)) (k : Nat) (x : α) {w : α}
    (h : find_slot m k = some w) : find_slot (write_slot m k x) k = some x := by
  induction m with
  | nil => cases h
  | cons p rest ih =>
      obtain ⟨k', v⟩ := p
      by_cases hk : k' = k
      · show find_slot (if k' = k then (k', x) :: rest else (k', v) :: write_slot rest k x) k =
          some x
        rw [if_pos hk]
        show (if k' = k then some x else find_slot rest k) = some x
        rw [if_pos hk]
      · have h2 : find_slot rest k = some w := by
          have hh : (if k' = k then some v else find_slot rest k) = some w := h
          rwa [if_neg hk] at hh
        show find_slot (if k' = k then (k', x) :: rest else (k', v) :: write_slot rest k x) k =
          some x
        rw [if_neg hk]
        show (if k' = k then some v else find_slot (write_slot rest k x) k) = some x
        rw [if_neg hk]
        exact ih h2

end GilVar

/-- Claim C10: for a `variable_t` observer and any tid that has a slot,
firing `will_unschedule(tid)` and then `did_schedule(tid)` is the identity
on the pair (published value, tid's slot): each hook swaps the tid's slot
with the published value, and the two swaps restore both. -/
theorem C10_unschedule_schedule_identity {α : Type} (s : GilVar.var_state α) (tid : Nat)
    (v : α) (h : GilVar.find_slot s.slots tid = some v) :
    (GilVar.will_unschedule tid s).bind (GilVar.did_schedule tid) =
        some { slots := GilVar.write_slot (GilVar.write_slot s.slots tid s.published) tid v,
               published := s.published } ∧
      GilVar.find_slot
          (GilVar.write_slot (GilVar.write_slot s.slots tid s.published) tid v) tid = some v := by
  have hfind2 : GilVar.find_slot (GilVar.write_slot s.slots tid s.published) tid =
      some s.published := GilVar.find_slot_write_slot _ _ _ h
  have h1 : GilVar.will_unschedule tid s =
      some { slots := GilVar.write_slot s.slots tid s.published, published := v } := by
    unfold GilVar.will_unschedule
    rw [h]
  have h2 : GilVar.did_schedule tid
      { slots := GilVar.write_slot s.slots tid s.published, published := v } =
      some { slots := GilVar.write_slot (GilVar.write_slot s.slots tid s.published) tid v,
             published := s.published } := by
    unfold GilVar.did_schedule
    dsimp only
    rw [hfind2]
  rw [h1]
  exact ⟨h2, GilVar.find_slot_write_slot _ _ _ hfind2⟩

/-- Witness for C10: tid 1 holds slot value 10 while 20 is published;
unscheduling then rescheduling tid 1 restores published 20 and slot 10. -/
theorem C10_unschedule_schedule_identity_witness :
    GilVar.find_slot [(1, 10)] 1 = some (10 : Nat) ∧
      ((GilVar.will_unschedule 1 { slots := [(1, 10)], published := (20 : Nat) }).bind
          (GilVar.did_schedule 1) =
        some { slots := GilVar.write_slot (GilVar.write_slot [(1, 10)] 1 20) 1 10,
               published := 20 } ∧
      GilVar.find_slot (GilVar.write_slot (GilVar.write_slot [(1, 10)] 1 20) 1 10) 1 =
        some 10) :=
  ⟨by decide,
    C10_unschedule_schedule_identity { slots := [(1, 10)], published := (20 : Nat) } 1 10
      (by decide)⟩

/-- Claim C1 fails on the code: from the reachable state where thread 1 owns
the GIL and thread 2 waits at the FIFO front, `release(1)` (whose whole body
is the ownership assert, gil.cpp lines 155-159) returns the state unchanged:
no `will_unschedule` observer hook fires, `owner` is not cleared, and the
front waiter is neither removed, made owner, nor notified. -/
theorem C1_release_changes_nothing :
    Gil.run_gil [Gil.gil_op.run 1, Gil.gil_op.run 2] =
        some { owner := some 1, waitqueue := [2], events := [Gil.event.did_schedule 1] } ∧
      Gil.gil_step
          { owner := some 1, waitqueue := [2], events := [Gil.event.did_schedule 1] }
          (Gil.gil_op.release 1) =
        some { owner := some 1, waitqueue := [2], events := [Gil.event.did_schedule 1] } := by
  decide

/-- Claim C2 fails on the code: after the reachable call sequence `run(1)`
then `yield(1)`, thread 1 is simultaneously the owner and an element of the
waitqueue, because `release` inside `yield` never clears `owner` while `run`
re-enqueues the thread. -/
theorem C2_owner_also_in_waitqueue :
    Gil.run_gil [Gil.gil_op.run 1, Gil.gil_op.yield 1] =
        some { owner := some 1, waitqueue := [1],
               events := [Gil.event.did_schedule 1, Gil.event.did_schedule 1] } ∧
      ({ owner := some 1, waitqueue := [1],
          events := [Gil.event.did_schedule 1, Gil.event.did_schedule 1] } :
            Gil.gil_state).owner = some 1 ∧
      1 ∈ ({ owner := some 1, waitqueue := [1],
              events := [Gil.event.did_schedule 1, Gil.event.did_schedule 1] } :
            Gil.gil_state).waitqueue := by
  decide

/-- Claim C3 fails on the code: thread 2 enqueues while thread 1 runs, then
thread 1 yields; the yield is a no-op for scheduling: thread 1 stays owner
and fires `did_schedule` again, while thread 2 — enqueued earlier and at the
FIFO front — is never scheduled. -/
theorem C3_yield_skips_fifo_front :
    Gil.run_gil [Gil.gil_op.run 1, Gil.gil_op.run 2, Gil.gil_op.yield 1] =
        some { owner := some 1, waitqueue := [2, 1],
               events := [Gil.event.did_schedule 1, Gil.event.did_schedule 1] } ∧
      Gil.event.did_schedule 2 ∉
        [Gil.event.did_schedule 1, Gil.event.did_schedule 1] := by
  decide

/-- Claim C4 fails on the code: thread 1 spawns (slot snapshots published 0),
runs, writes 5 to the published variable, and yields.  The yield's `run`
fires `did_schedule(1)` again without any intervening `will_unschedule(1)`
(`release` fires nothing), so the swap in `variable_t::did_schedule` moves
the stale slot value 0 into the published variable: thread 1's first read
after being rescheduled yields 0, not the 5 it wrote. -/
theorem C4_written_value_lost_on_reschedule :
    Sys.run_sys [Sys.sys_op.spawn 1, Sys.sys_op.run 1, Sys.sys_op.write 1 5,
        Sys.sys_op.yield 1] =
        some { owner := some 1, waitqueue := [1],
               var := { slots := [(1, 5)], published := 0 } } ∧
      (0 : Nat) ≠ 5 := by
  decide

end Fish
